import Mathlib

/-!
Verification of the BMP encoder in `src/bmp.rs` (repository `rtow`).

The encoder takes an in-memory raster image and appends a BMP file image
(14-byte file header, 40-byte info header, then packed pixel rows) to a
growable byte buffer.  This file gives a shallow embedding of the encoder:
pure Lean functions translated from the Rust source, with machine integers
modelled as `Nat` (with an explicit `% 2^32` where `u32` wrapping matters)
and the fuelled row loop returning `Option` (where `none` marks divergence,
which the fuel theorems rule out under the input invariant).
-/

/-- A byte value.  Byte identity is all the encoder needs: bytes are moved,
swapped and compared, never arithmetically combined. -/
abbrev Byte := Nat

/-- A 3-byte pixel, as the Rust code views the cloned buffer: `&mut [[u8; 3]]`.
Component 1 is byte 0, component 2.1 is byte 1, component 2.2 is byte 2. -/
abbrev Pixel := Byte × Byte × Byte

/-- Modelled from the spec: the `Image` collaborator lives outside `src/`
(`src/image.rs` is not provided).  Per the spec's input contract it carries
an unsigned `width`, a `height` (stored unsigned in the source `Image`; the
encoder converts it with `try_into` for the signed header field), and a flat
pixel buffer with 3 bytes per pixel and no row padding.  The input invariant
is `buffer` holding exactly `width * height` pixels (`width * height * 3`
bytes).  `bytes_per_pixel()` is fixed at 3 and `bits_per_pixel()` at 24. -/
structure Image where
  width : Nat
  height : Nat
  buffer : List Pixel
deriving DecidableEq, Repr

/-- Modelled from the spec: `Image::bytes_per_pixel` always returns 3. -/
def Image.bytesPerPixel (_ : Image) : Nat := 3

/-- `pixel.swap(0, 2)` from the transform loop in `encode`. -/
def swap02 (p : Pixel) : Pixel := (p.2.2, p.2.1, p.1)

/-- The three bytes of a pixel, in memory order. -/
def pixelBytes (p : Pixel) : List Byte := [p.1, p.2.1, p.2.2]

/-- Concatenation of byte chunks (row-by-row output assembled in order). -/
def bytesJoin : List (List Byte) → List Byte
  | [] => []
  | c :: r => c ++ bytesJoin r

/-- Little-endian serialization of a `u16` field. -/
def u16le (n : Nat) : List Byte := [n % 256, n / 256 % 256]

/-- Little-endian serialization of a `u32` (or non-negative `i32`) field. -/
def u32le (n : Nat) : List Byte :=
  [n % 256, n / 256 % 256, n / 65536 % 256, n / 16777216 % 256]

/-- Reads the little-endian `u32` stored at byte offset `off` of `bytes`. -/
def readU32le (bytes : List Byte) (off : Nat) : Nat :=
  match bytes.drop off with
  | b0 :: b1 :: b2 :: b3 :: _ => b0 + 256 * b1 + 65536 * b2 + 16777216 * b3
  | _ => 0

/-- `InfoHeader` from `src/bmp.rs` (the 40-byte bitmap-info header).
`compression_method` is the `u32` discriminant of `CompressionMethod`
(`BI_RGB = 0`). -/
structure InfoHeader where
  header_size : Nat
  image_width : Nat
  image_height : Nat
  color_planes : Nat
  bits_per_pixel : Nat
  compression_method : Nat
  image_size : Nat
  resolution_x : Nat
  resolution_y : Nat
  palette_size : Nat
  num_important_colors : Nat
deriving DecidableEq, Repr

/-- `InfoHeader::new` from `src/bmp.rs`:
`image_size = (image.width + (image.width % 4) as u32) * image.height *
image.bytes_per_pixel() as u32`, computed in `u32` arithmetic (hence the
`% 2^32`).  `InfoHeader::FILE_SIZE = size_of::<InfoHeader>() = 40` (the
repository's own `header_sizes` test asserts this).  The `width`/`height`
`try_into().unwrap()` conversions panic for values `≥ 2^31`; that panic is
modelled at the `encode` level (see `encodeOut`). -/
def InfoHeader.new (image : Image) : InfoHeader :=
  let image_size := ((image.width + image.width % 4) * image.height * image.bytesPerPixel) % 2 ^ 32
  { header_size := 40
    image_width := image.width
    image_height := image.height
    color_planes := 1
    bits_per_pixel := 24
    compression_method := 0
    image_size := image_size
    resolution_x := 2835
    resolution_y := 2835
    palette_size := 0
    num_important_colors := 0 }

/-- `Header` from `src/bmp.rs` (the 14-byte BMP file header). -/
structure Header where
  magic : List Byte
  file_size : Nat
  reserved0 : Nat
  reserved1 : Nat
  image_offset : Nat
deriving DecidableEq, Repr

/-- `Header::for_info_header` from `src/bmp.rs`:
`total_header_size = Header::FILE_SIZE + InfoHeader::FILE_SIZE = 14 + 40`,
`file_size = info.image_size + total_header_size` in `u32` arithmetic. -/
def Header.for_info_header (info : InfoHeader) : Header :=
  { magic := [0x42, 0x4D]
    file_size := (info.image_size + 54) % 2 ^ 32
    reserved0 := 0
    reserved1 := 0
    image_offset := 54 }

/-- `Header::write_to_buffer`: the five writes, flattened to the 14 bytes
they append (the raw-memory `as_u8_slice` serialization is replaced by the
explicit little-endian layout the spec's output contract gives). -/
def Header.bytes (h : Header) : List Byte :=
  h.magic ++ u32le h.file_size ++ u16le h.reserved0 ++ u16le h.reserved1 ++
    u32le h.image_offset

/-- `buffer.write(as_u8_slice(&info_header))`: the 40 bytes of the packed
`repr(C)` info header, field by field, little-endian. -/
def InfoHeader.bytes (i : InfoHeader) : List Byte :=
  u32le i.header_size ++ u32le i.image_width ++ u32le i.image_height ++
    u16le i.color_planes ++ u16le i.bits_per_pixel ++
    u32le i.compression_method ++ u32le i.image_size ++
    u32le i.resolution_x ++ u32le i.resolution_y ++
    u32le i.palette_size ++ u32le i.num_important_colors

/-- `let align = image.width as usize % 4;` in `encode`. -/
def Image.align (img : Image) : Nat := img.width % 4

/-- The per-iteration cursor increment `image.width as usize + align`
(in pixels) of the row loop in `encode`. -/
def Image.stride (img : Image) : Nat := img.width + img.align

/-- `let bytes_per_line = image.width as usize * image.bytes_per_pixel() as usize;` -/
def Image.bytesPerLine (img : Image) : Nat := img.width * img.bytesPerPixel

/-- The cloned, channel-swapped pixel data of `encode`, flattened to bytes:
`pixels = image.buffer.clone()` followed by `pixel.swap(0, 2)` on every
pixel.  The source image itself is untouched. -/
def Image.flatTransformed (img : Image) : List Byte :=
  bytesJoin ((img.buffer.map swap02).map pixelBytes)

/-- The `bytes_per_line`-byte slice the row loop writes at pixel cursor `y`:
`slice::from_raw_parts(pixel_data.as_ptr().add(y_offset), bytes_per_line)`.
A read past the end of the cloned buffer (undefined behaviour in the Rust
source, reachable only when `width % 4 ≠ 0`) is modelled as truncating. -/
def rowChunk (img : Image) (y : Nat) : List Byte :=
  (img.flatTransformed.drop (3 * y)).take img.bytesPerLine

/-- The row loop of `encode` (`while y_offset < pixel_data.len()`), with
explicit fuel.  Each iteration performs the two writes of the loop body:
the row slice and the `&align_bytes[0..align]` zero padding, kept as a pair
so the padding write stays visible.  `none` means the fuel ran out, i.e.
the modelled loop did not terminate within `fuel` iterations. -/
def rowLoop (img : Image) : Nat → Nat → Option (List (List Byte × List Byte))
  | 0, y => if y < img.buffer.length then none else some []
  | fuel + 1, y =>
    if y < img.buffer.length then
      (rowLoop img fuel (y + img.stride)).map
        (fun rest => (rowChunk img y, List.replicate img.align 0) :: rest)
    else
      some []

/-- Flattens the loop iterations back into the byte stream they append. -/
def itersBytes : List (List Byte × List Byte) → List Byte
  | [] => []
  | p :: r => p.1 ++ p.2 ++ itersBytes r

/-- The 54 header bytes `encode` writes before the pixel rows. -/
def encodeHeaderBytes (img : Image) : List Byte :=
  (Header.for_info_header (InfoHeader.new img)).bytes ++ (InfoHeader.new img).bytes

/-- The byte sequence `encode(image, buffer)` appends to `buffer`.
`none` models abnormal termination: the `try_into().unwrap()` panic when a
dimension does not fit an `i32`, or a diverging row loop (the fuel
`buffer.length + 1` is proven sufficient whenever the loop terminates
under the input invariant).  Writes into the `Vec<u8>` sink never fail. -/
def encodeOut (img : Image) : Option (List Byte) :=
  if img.width < 2 ^ 31 ∧ img.height < 2 ^ 31 then
    (rowLoop img (img.buffer.length + 1) 0).map
      (fun iters => encodeHeaderBytes img ++ itersBytes iters)
  else
    none

/-- `encode` as a state transformer: it borrows the image immutably (the
transform mutates a clone, never the source) and appends to the caller's
buffer; the resulting state pairs the image after the call with the final
buffer contents. -/
def encodeProc (img : Image) (buffer : List Byte) : Option (Image × List Byte) :=
  (encodeOut img).map (fun out => (img, buffer ++ out))

/-- Follows the spec's words (§3 output byte sequence, §4.3 Row Packer,
claim C1): after the headers, one packed row per image row in storage
order, each row being exactly `bytes_per_line` transformed bytes taken
from that row of the source buffer, followed by the `width mod 4` zero
padding bytes.  This is the spec-side definition the encoder's actual row
loop is compared against. -/
def specPixelData (img : Image) : List Byte :=
  bytesJoin ((List.range img.height).map
    (fun r => rowChunk img (r * img.width) ++ List.replicate img.align 0))

/-- Follows the spec's words (§4.1, claim C3): the width rounded up to the
next multiple of 4. -/
def roundUpToMultipleOf4 (n : Nat) : Nat := ((n + 3) / 4) * 4

/-- Modelled result of running `encode` against a fallible output sink.
The source function only ever takes a `Vec<u8>` sink, whose writes cannot
fail; `ioFailure` is the outcome the spec's failure semantics describe (a
write error surfaced to the caller as a result) and is included so that
claim C8 can be stated.  `panicked` models `.unwrap()` hitting an `Err`
(and the `try_into().unwrap()` dimension panic); `diverged` marks fuel
exhaustion of the row loop. -/
inductive EncodeOutcome where
  | ok (out : List Byte)
  | ioFailure
  | panicked
  | diverged
deriving DecidableEq, Repr

/-- The row loop of `encode` run against a fallible sink: `sink i` tells
whether the `i`-th write issued by `encode` succeeds.  Each iteration
issues two writes (row slice, then padding), each followed by `.unwrap()`,
so the first failing write panics. -/
def rowLoopW (img : Image) (sink : Nat → Bool) :
    Nat → Nat → Nat → List Byte → EncodeOutcome
  | 0, y, _, acc => if y < img.buffer.length then .diverged else .ok acc
  | fuel + 1, y, widx, acc =>
    if y < img.buffer.length then
      if sink widx then
        if sink (widx + 1) then
          rowLoopW img sink fuel (y + img.stride) (widx + 2)
            (acc ++ rowChunk img y ++ List.replicate img.align 0)
        else .panicked
      else .panicked
    else .ok acc

/-- `encode` run against a fallible sink.  `Header::write_to_buffer`
issues five writes (its internal `?` would propagate an error, but the
call site does `.unwrap()`), the info-header write is number 5 and is also
`.unwrap()`ed, and the row loop continues from write number 6. -/
def encodeWith (img : Image) (sink : Nat → Bool) : EncodeOutcome :=
  if img.width < 2 ^ 31 ∧ img.height < 2 ^ 31 then
    if (List.range 5).all (fun i => sink i) then
      if sink 5 then
        rowLoopW img sink (img.buffer.length + 1) 0 6 (encodeHeaderBytes img)
      else .panicked
    else .panicked
  else .panicked

/-- 2x2 image refuting claim C1's per-row layout (the loop stride skips
`width mod 4 = 2` pixels per iteration, so only one row is emitted). -/
def imgC1cex : Image := ⟨2, 2, [(1, 2, 3), (4, 5, 6), (7, 8, 9), (10, 11, 12)]⟩

/-- 4x1 image (width divisible by 4) witnessing the amended claim C1. -/
def imgC1wit : Image := ⟨4, 1, [(1, 2, 3), (4, 5, 6), (7, 8, 9), (10, 11, 12)]⟩

/-- The 1x1 image of claim C2 (spec §8 round-trip scenario). -/
def imgC2bug : Image := ⟨1, 1, [(255, 0, 0)]⟩

/-- 1x1 image refuting claim C3's rounded image_size formula. -/
def imgC3cex : Image := ⟨1, 1, [(5, 6, 7)]⟩

/-- 1x1 image witnessing the amended claim C3. -/
def imgC3wit : Image := ⟨1, 1, [(9, 9, 9)]⟩

/-- The 2x2 image claim C4 singles out. -/
def imgC4wit : Image := ⟨2, 2, [(1, 1, 1), (2, 2, 2), (3, 3, 3), (4, 4, 4)]⟩

/-- 1x1 image witnessing claim C5 (one row, one zero padding byte). -/
def imgC5wit : Image := ⟨1, 1, [(7, 8, 9)]⟩

/-- Image witnessing claim C7. -/
def imgC7wit : Image := ⟨0, 0, []⟩

/-- 1x1 image refuting claim C8 against an always-failing sink. -/
def imgC8cex : Image := ⟨1, 1, [(255, 0, 0)]⟩

/-- 2x1 image witnessing the amended claim C8. -/
def imgC8wit : Image := ⟨2, 1, [(1, 2, 3), (4, 5, 6)]⟩

/-- A sink whose every write fails. -/
def sinkC8 : Nat → Bool := fun _ => false

/-- 2x3 image witnessing claim C9. -/
def imgC9wit : Image :=
  ⟨2, 3, [(0, 0, 0), (0, 0, 0), (0, 0, 0), (0, 0, 0), (0, 0, 0), (0, 0, 0)]⟩

/-- Height-zero image witnessing claim C10. -/
def imgC10wit : Image := ⟨3, 0, []⟩

/-- Each pixel contributes exactly 3 bytes to the flattened buffer. -/
lemma bytesJoin_triples_length : ∀ l : List Pixel,
    (bytesJoin ((l.map swap02).map pixelBytes)).length = 3 * l.length := by
  intro l
  induction l with
  | nil => rfl
  | cons p t ih =>
    simp only [List.map_cons, bytesJoin, List.length_append, ih, pixelBytes,
      List.length_cons, List.length_nil]
    omega

/-- The transformed byte stream is three bytes per source pixel. -/
lemma flatTransformed_length (img : Image) :
    img.flatTransformed.length = 3 * img.buffer.length :=
  bytesJoin_triples_length img.buffer

/-- When the width is a multiple of 4 the loop advances by exactly one row
per iteration and, given enough fuel, emits precisely the transformed byte
stream from the cursor position onwards. -/
lemma rowLoop_align0 (img : Image) (ha : img.width % 4 = 0) :
    ∀ fuel, ∀ y, img.buffer.length ≤ y + fuel * img.width →
      ∃ iters, rowLoop img fuel y = some iters ∧
        itersBytes iters = img.flatTransformed.drop (3 * y) := by
  intro fuel
  induction fuel with
  | zero =>
    intro y hy
    have hyl : ¬ y < img.buffer.length := by omega
    refine ⟨[], by simp [rowLoop, hyl], ?_⟩
    have hdrop : img.flatTransformed.length ≤ 3 * y := by
      rw [flatTransformed_length]; omega
    simp [itersBytes, List.drop_eq_nil_of_le hdrop]
  | succ f ih =>
    intro y hy
    by_cases hyl : y < img.buffer.length
    · have hs : img.stride = img.width := by
        simp [Image.stride, Image.align, ha]
      have hy' : img.buffer.length ≤ (y + img.stride) + f * img.width := by
        rw [hs]
        have hsm : (f + 1) * img.width = f * img.width + img.width := by ring
        omega
      obtain ⟨iters', heq, hbytes⟩ := ih (y + img.stride) hy'
      refine ⟨(rowChunk img y, List.replicate img.align 0) :: iters', ?_, ?_⟩
      · simp [rowLoop, hyl, heq]
      · have hrep : List.replicate img.align 0 = ([] : List Byte) := by
          simp [Image.align, ha]
        have h3 : 3 * (y + img.stride) = 3 * y + img.bytesPerLine := by
          rw [hs]
          simp only [Image.bytesPerLine, Image.bytesPerPixel]
          ring
        calc itersBytes ((rowChunk img y, List.replicate img.align 0) :: iters')
            = rowChunk img y ++ List.replicate img.align 0 ++ itersBytes iters' := rfl
          _ = rowChunk img y ++ itersBytes iters' := by rw [hrep]; simp
          _ = (img.flatTransformed.drop (3 * y)).take img.bytesPerLine ++
                img.flatTransformed.drop (3 * (y + img.stride)) := by
              rw [hbytes]; rfl
          _ = (img.flatTransformed.drop (3 * y)).take img.bytesPerLine ++
                (img.flatTransformed.drop (3 * y)).drop img.bytesPerLine := by
              rw [h3, ← List.drop_drop]
          _ = img.flatTransformed.drop (3 * y) := List.take_append_drop _ _
    · refine ⟨[], by simp [rowLoop, hyl], ?_⟩
      have hdrop : img.flatTransformed.length ≤ 3 * y := by
        rw [flatTransformed_length]; omega
      simp [itersBytes, List.drop_eq_nil_of_le hdrop]

/-- Splitting a buffer of `h` rows of `3 * w` bytes each back into rows and
concatenating them is the identity. -/
lemma join_rows : ∀ (h w : Nat) (l : List Byte), l.length = 3 * (w * h) →
    bytesJoin ((List.range h).map
      (fun r => (l.drop (3 * (r * w))).take (w * 3))) = l := by
  intro h
  induction h with
  | zero =>
    intro w l hl
    simp only [Nat.mul_zero] at hl
    have : l = [] := List.eq_nil_of_length_eq_zero (by omega)
    simp [this, bytesJoin]
  | succ n ih =>
    intro w l hl
    rw [List.range_succ_eq_map, List.map_cons, List.map_map]
    have hfun : ((fun r => (l.drop (3 * (r * w))).take (w * 3)) ∘ Nat.succ)
        = fun r => ((l.drop (3 * w)).drop (3 * (r * w))).take (w * 3) := by
      funext r
      simp only [Function.comp]
      rw [List.drop_drop]
      congr 2
      have : Nat.succ r * w = r * w + w := by
        rw [Nat.succ_mul]
      rw [this]
      ring
    rw [hfun]
    have hlen' : (l.drop (3 * w)).length = 3 * (w * n) := by
      rw [List.length_drop]
      have hms : w * (n + 1) = w * n + w := by ring
      omega
    simp only [bytesJoin]
    rw [ih w (l.drop (3 * w)) hlen']
    simp only [Nat.zero_mul, Nat.mul_zero, List.drop_zero]
    rw [Nat.mul_comm w 3]
    exact List.take_append_drop _ _

/-- Under the input invariant, when the width is a multiple of 4 the
spec's row-by-row layout is exactly the flattened transformed buffer. -/
lemma specPixelData_align0 (img : Image) (ha : img.width % 4 = 0)
    (hinv : img.buffer.length = img.width * img.height) :
    specPixelData img = img.flatTransformed := by
  unfold specPixelData
  have hrep : List.replicate img.align 0 = ([] : List Byte) := by
    simp [Image.align, ha]
  have hchunk : ∀ r : Nat, rowChunk img (r * img.width) ++ List.replicate img.align 0
      = (img.flatTransformed.drop (3 * (r * img.width))).take (img.width * 3) := by
    intro r
    rw [hrep, List.append_nil]
    rfl
  simp only [hchunk]
  exact join_rows img.height img.width img.flatTransformed
    (by rw [flatTransformed_length, hinv])

/-- Whenever the cursor can cross the buffer length within `fuel`
iterations, the fuelled row loop completes. -/
lemma rowLoop_isSome (img : Image) :
    ∀ fuel, ∀ y, img.buffer.length ≤ y + fuel * img.stride →
      (rowLoop img fuel y).isSome = true := by
  intro fuel
  induction fuel with
  | zero =>
    intro y hy
    have hyl : ¬ y < img.buffer.length := by omega
    simp [rowLoop, hyl]
  | succ f ih =>
    intro y hy
    by_cases hyl : y < img.buffer.length
    · have hy' : img.buffer.length ≤ (y + img.stride) + f * img.stride := by
        have hsm : (f + 1) * img.stride = f * img.stride + img.stride := by ring
        omega
      have := ih (y + img.stride) hy'
      simp [rowLoop, hyl, this]
    · simp [rowLoop, hyl]

/-- Every padding chunk the row loop emits is `align` zero bytes. -/
lemma rowLoop_pads (img : Image) :
    ∀ fuel y iters, rowLoop img fuel y = some iters →
      ∀ p ∈ iters, p.2 = List.replicate img.align 0 := by
  intro fuel
  induction fuel with
  | zero =>
    intro y iters h p hp
    by_cases hyl : y < img.buffer.length
    · simp [rowLoop, hyl] at h
    · simp [rowLoop, hyl] at h
      subst h
      simp at hp
  | succ f ih =>
    intro y iters h p hp
    by_cases hyl : y < img.buffer.length
    · simp only [rowLoop, if_pos hyl] at h
      cases heq : rowLoop img f (y + img.stride) with
      | none => rw [heq] at h; simp at h
      | some iters' =>
        rw [heq] at h
        simp at h
        subst h
        rcases List.mem_cons.mp hp with hp | hp
        · rw [hp]
        · exact ih (y + img.stride) iters' heq p hp
    · simp [rowLoop, hyl] at h
      subst h
      simp at hp

/-- No branch of the fallible-sink row loop produces an `ioFailure`
outcome: a failed write panics via `.unwrap()` instead. -/
lemma rowLoopW_ne_ioFailure (img : Image) (sink : Nat → Bool) :
    ∀ fuel y widx acc,
      rowLoopW img sink fuel y widx acc ≠ EncodeOutcome.ioFailure := by
  intro fuel
  induction fuel with
  | zero =>
    intro y widx acc
    by_cases hyl : y < img.buffer.length <;> simp [rowLoopW, hyl]
  | succ f ih =>
    intro y widx acc
    by_cases hyl : y < img.buffer.length
    · by_cases h1 : sink widx
      · by_cases h2 : sink (widx + 1)
        · simpa [rowLoopW, hyl, h1, h2] using ih _ _ _
        · simp [rowLoopW, hyl, h1, h2]
      · simp [rowLoopW, hyl, h1]
    · simp [rowLoopW, hyl]

/-- Claim C1, counterexample: for the 2x2 image (width mod 4 = 2) the
encoder does not append one packed row per image row after the headers —
the loop stride of `width + width mod 4` pixels makes it emit a single
row (8 bytes) where the claimed layout has two rows (16 bytes). -/
theorem bmp_C1_counterexample :
    encodeOut imgC1cex ≠
      some (encodeHeaderBytes imgC1cex ++ specPixelData imgC1cex) := by decide

/-- Claim C1 (amended): for every image satisfying the input invariant
whose width is a multiple of 4 (and whose dimensions fit an `i32`),
encode appends, after the 54 header bytes, exactly `height` packed rows,
one per image row in source-buffer order, each consisting of exactly
`bytes_per_line = width * 3` transformed pixel bytes taken from that row
(with empty padding), i.e. the output is exactly the spec's row layout. -/
theorem bmp_C1_rows_amended (img : Image) (hw : img.width < 2 ^ 31)
    (hh : img.height < 2 ^ 31)
    (hinv : img.buffer.length = img.width * img.height)
    (ha : img.width % 4 = 0) :
    encodeOut img = some (encodeHeaderBytes img ++ specPixelData img) := by
  have hfuel : img.buffer.length ≤ 0 + (img.buffer.length + 1) * img.width := by
    rcases Nat.eq_zero_or_pos img.width with h0 | hpos
    · have hlen : img.buffer.length = 0 := by rw [hinv, h0]; simp
      simp [h0, hlen]
    · have := Nat.le_mul_of_pos_right (img.buffer.length + 1) hpos
      omega
  obtain ⟨iters, heq, hbytes⟩ :=
    rowLoop_align0 img ha (img.buffer.length + 1) 0 hfuel
  have hbytes' : itersBytes iters = img.flatTransformed := by
    simpa using hbytes
  unfold encodeOut
  rw [if_pos ⟨hw, hh⟩, heq]
  simp [hbytes', specPixelData_align0 img ha hinv]

/-- Claim C1, witness: the amended statement evaluated on a 4x1 image. -/
theorem bmp_C1_witness :
    encodeOut imgC1wit = some (encodeHeaderBytes imgC1wit ++ specPixelData imgC1wit) :=
  bmp_C1_rows_amended imgC1wit (by decide) (by decide) (by decide) (by decide)

/-- Claim C2: at the 1x1 image with one pixel `(255, 0, 0)` the encoder
appends 58 bytes in total, but the little-endian `u32` at byte offset 2
of the output (the `file_size` field) holds 60, not 58: the code
contradicts the spec's requirement that the header `file_size` field
match the actual output length exactly. -/
theorem bmp_C2_file_size_mismatch :
    (encodeOut imgC2bug).isSome = true ∧
    ((encodeOut imgC2bug).getD []).length = 58 ∧
    readU32le ((encodeOut imgC2bug).getD []) 2 = 60 := by decide

/-- Claim C3, counterexample: for a 1x1 image the recorded `image_size`
is `(1 + 1 mod 4) * 1 * 3 = 6`, not
`round_up_to_multiple_of_4(1) * 1 * 3 = 12`. -/
theorem bmp_C3_counterexample :
    (InfoHeader.new imgC3cex).image_size ≠
      roundUpToMultipleOf4 imgC3cex.width * imgC3cex.height * 3 := by decide

/-- Claim C3 (amended): the `image_size` recorded in the info header is
`(width + width mod 4) * height * bytes_per_pixel` (whenever that value
fits a `u32`): the code adds `width mod 4` to the width instead of
rounding the width up to the next multiple of 4. -/
theorem bmp_C3_image_size_amended (img : Image)
    (h : (img.width + img.width % 4) * img.height * 3 < 2 ^ 32) :
    (InfoHeader.new img).image_size =
      (img.width + img.width % 4) * img.height * 3 := by
  simp only [InfoHeader.new, Image.bytesPerPixel]
  exact Nat.mod_eq_of_lt h

/-- Claim C3, witness: the amended statement evaluated on a 1x1 image. -/
theorem bmp_C3_witness :
    (InfoHeader.new imgC3wit).image_size =
      (imgC3wit.width + imgC3wit.width % 4) * imgC3wit.height * 3 :=
  bmp_C3_image_size_amended imgC3wit (by decide)

/-- Claim C4: for every image (whose `image_size + 54` fits a `u32`), the
file header has `image_offset = 54` and `file_size = image_size + 54`. -/
theorem bmp_C4_header_fields (img : Image)
    (h : (InfoHeader.new img).image_size + 54 < 2 ^ 32) :
    (Header.for_info_header (InfoHeader.new img)).image_offset = 54 ∧
    (Header.for_info_header (InfoHeader.new img)).file_size =
      (InfoHeader.new img).image_size + 54 := by
  refine ⟨rfl, ?_⟩
  simp only [Header.for_info_header]
  exact Nat.mod_eq_of_lt h

/-- Claim C4, witness: the header-field relations evaluated at the
`width = 2, height = 2, bytes_per_pixel = 3` image the claim names. -/
theorem bmp_C4_witness :
    (Header.for_info_header (InfoHeader.new imgC4wit)).image_offset = 54 ∧
    (Header.for_info_header (InfoHeader.new imgC4wit)).file_size =
      (InfoHeader.new imgC4wit).image_size + 54 :=
  bmp_C4_header_fields imgC4wit (by decide)

/-- Claim C5: every row the loop emits is followed by exactly
`width mod 4` padding bytes, all zero; in particular when the width is
divisible by 4 no padding bytes are appended after any row. -/
theorem bmp_C5_padding (img : Image) (iters : List (List Byte × List Byte))
    (h : rowLoop img (img.buffer.length + 1) 0 = some iters) :
    ∀ p ∈ iters, p.2 = List.replicate (img.width % 4) 0 ∧
      (img.width % 4 = 0 → p.2 = []) := by
  intro p hp
  have hpad := rowLoop_pads img _ _ _ h p hp
  refine ⟨hpad, ?_⟩
  intro h0
  rw [hpad]
  simp [Image.align, h0]

/-- Claim C5, witness: the padding property evaluated on a 1x1 image,
whose single emitted row is `[9, 8, 7]` followed by the one zero padding
byte `width mod 4 = 1` dictates. -/
theorem bmp_C5_witness :
    (([9, 8, 7], [0]) : List Byte × List Byte).2 =
      List.replicate (imgC5wit.width % 4) 0 ∧
    (imgC5wit.width % 4 = 0 →
      (([9, 8, 7], [0]) : List Byte × List Byte).2 = []) :=
  bmp_C5_padding imgC5wit [([9, 8, 7], [0])] (by decide) ([9, 8, 7], [0])
    (by decide)

/-- Claim C6: the pixel transform (swap bytes 0 and 2 of every 3-byte
pixel, byte 1 unchanged) is an involution on pixel buffers. -/
theorem bmp_C6_involution (l : List Pixel) : (l.map swap02).map swap02 = l := by
  rw [List.map_map]
  have h : swap02 ∘ swap02 = id := funext fun p => rfl
  rw [h, List.map_id]

/-- Claim C7: encode leaves the caller's source image unchanged — the
image in the post-call state has the same width, height and pixel buffer
as the input image (the transform mutates a clone of the buffer). -/
theorem bmp_C7_source_untouched (img : Image) (buffer : List Byte)
    (st : Image × List Byte) (h : encodeProc img buffer = some st) :
    st.1.width = img.width ∧ st.1.height = img.height ∧
      st.1.buffer = img.buffer := by
  have h1 : st.1 = img := by
    unfold encodeProc at h
    cases heq : encodeOut img with
    | none => rw [heq] at h; simp at h
    | some out =>
      rw [heq] at h
      simp at h
      rw [← h]
  rw [h1]
  exact ⟨rfl, rfl, rfl⟩

/-- Claim C7, witness: the frame property evaluated at a concrete image. -/
theorem bmp_C7_witness :
    ((encodeProc imgC7wit []).getD (⟨9, 9, []⟩, [])).1.width = imgC7wit.width ∧
    ((encodeProc imgC7wit []).getD (⟨9, 9, []⟩, [])).1.height = imgC7wit.height ∧
    ((encodeProc imgC7wit []).getD (⟨9, 9, []⟩, [])).1.buffer = imgC7wit.buffer :=
  bmp_C7_source_untouched imgC7wit [] _ (by decide)

/-- Claim C8, counterexample: with a sink whose writes fail, encode's
outcome at a 1x1 image is a panic (`.unwrap()` on the write error), not
an `IoFailure` result surfaced to the caller. -/
theorem bmp_C8_counterexample :
    encodeWith imgC8cex (fun _ => false) = EncodeOutcome.panicked ∧
    EncodeOutcome.panicked ≠ EncodeOutcome.ioFailure := by decide

/-- Claim C8 (amended): a write failure is never surfaced to the caller
as an `IoFailure` result — every write is `.unwrap()`ed, so encode never
produces the `ioFailure` outcome at all, and if the very first write
fails it terminates abnormally (panics). -/
theorem bmp_C8_failure_amended (img : Image) (sink : Nat → Bool) :
    encodeWith img sink ≠ EncodeOutcome.ioFailure ∧
    (sink 0 = false → encodeWith img sink = EncodeOutcome.panicked) := by
  constructor
  · unfold encodeWith
    by_cases hd : img.width < 2 ^ 31 ∧ img.height < 2 ^ 31
    · rw [if_pos hd]
      by_cases h5 : (List.range 5).all (fun i => sink i)
      · rw [if_pos h5]
        by_cases h6 : sink 5
        · rw [if_pos h6]
          exact rowLoopW_ne_ioFailure img sink _ _ _ _
        · rw [if_neg h6]
          simp
      · rw [if_neg h5]
        simp
    · rw [if_neg hd]
      simp
  · intro h0
    have h5 : ((List.range 5).all (fun i => sink i)) = false := by
      have hr : List.range 5 = [0, 1, 2, 3, 4] := rfl
      rw [hr]
      simp [h0]
    unfold encodeWith
    by_cases hd : img.width < 2 ^ 31 ∧ img.height < 2 ^ 31
    · rw [if_pos hd]
      simp [h5]
    · rw [if_neg hd]

/-- Claim C8, witness: the amended statement evaluated at a 2x1 image and
the always-failing sink. -/
theorem bmp_C8_witness :
    encodeWith imgC8wit sinkC8 ≠ EncodeOutcome.ioFailure ∧
    encodeWith imgC8wit sinkC8 = EncodeOutcome.panicked :=
  ⟨(bmp_C8_failure_amended imgC8wit sinkC8).1,
    (bmp_C8_failure_amended imgC8wit sinkC8).2 rfl⟩

/-- Claim C9: for every image satisfying the input invariant the row loop
terminates — with fuel `buffer.length + 1` it completes: either the
buffer is empty (width 0 forces this) and the loop body never runs, or
the stride `width + width mod 4` is positive and the cursor crosses the
buffer length within the fuel. -/
theorem bmp_C9_terminates (img : Image)
    (hinv : img.buffer.length = img.width * img.height) :
    (rowLoop img (img.buffer.length + 1) 0).isSome = true := by
  rcases Nat.eq_zero_or_pos img.width with h0 | hpos
  · have hlen : img.buffer.length = 0 := by rw [hinv, h0]; simp
    rw [hlen]
    simp [rowLoop, hlen]
  · apply rowLoop_isSome
    have h1 : img.width ≤ img.stride := Nat.le_add_right _ _
    have h2 : 0 < img.stride := lt_of_lt_of_le hpos h1
    have := Nat.le_mul_of_pos_right (img.buffer.length + 1) h2
    omega

/-- Claim C9, witness: termination evaluated on a 2x3 image. -/
theorem bmp_C9_witness :
    (rowLoop imgC9wit (imgC9wit.buffer.length + 1) 0).isSome = true :=
  bmp_C9_terminates imgC9wit (by decide)

/-- Claim C10: for every image with height 0 (hence, by the invariant, an
empty pixel buffer) and a width representable as `i32`, encode appends
exactly the 54 header bytes — the 14-byte file header followed by the
40-byte info header, no pixel data — and the emitted `file_size` field
(little-endian `u32` at byte offset 2) equals 54. -/
theorem bmp_C10_empty_image (img : Image) (hw : img.width < 2 ^ 31)
    (h0 : img.height = 0)
    (hinv : img.buffer.length = img.width * img.height) :
    encodeOut img = some (encodeHeaderBytes img) ∧
    ((Header.for_info_header (InfoHeader.new img)).bytes).length = 14 ∧
    ((InfoHeader.new img).bytes).length = 40 ∧
    (encodeHeaderBytes img).length = 54 ∧
    readU32le (encodeHeaderBytes img) 2 = 54 := by
  have hh : img.height < 2 ^ 31 := by rw [h0]; positivity
  have hlen : img.buffer.length = 0 := by rw [hinv, h0]; simp
  have his : (InfoHeader.new img).image_size = 0 := by
    simp [InfoHeader.new, Image.bytesPerPixel, h0]
  refine ⟨?_, rfl, rfl, rfl, ?_⟩
  · unfold encodeOut
    rw [if_pos ⟨hw, hh⟩, hlen]
    simp [rowLoop, hlen, itersBytes]
  · simp [readU32le, encodeHeaderBytes, Header.bytes, InfoHeader.bytes,
      Header.for_info_header, his, u32le, u16le]

/-- Claim C10, witness: the height-zero behaviour evaluated at a 3x0
image. -/
theorem bmp_C10_witness :
    encodeOut imgC10wit = some (encodeHeaderBytes imgC10wit) ∧
    ((Header.for_info_header (InfoHeader.new imgC10wit)).bytes).length = 14 ∧
    ((InfoHeader.new imgC10wit).bytes).length = 40 ∧
    (encodeHeaderBytes imgC10wit).length = 54 ∧
    readU32le (encodeHeaderBytes imgC10wit) 2 = 54 :=
  bmp_C10_empty_image imgC10wit (by decide) (by decide) (by decide)
